import Mathlib

/-!
Verification development for the `monkey-language-ts` repository: a shallow
embedding in Lean 4 of the lexer (`src/lexer/lexer.ts`, `src/lexer/token.ts`),
the Pratt parser (`src/parser/parser.ts`), the AST printer
(`src/parser/printer.ts`), the runtime object model
(`src/evaluator/object.ts`), environments (`src/evaluator/environment.ts`),
built-ins (`src/evaluator/builtins.ts`) and the tree-walking evaluator
(`src/evaluator/evaluator.ts`), together with theorems about the behaviour
of these functions.

Modelling conventions:
- JavaScript numbers are modelled as exact rationals in canonical form
  (`JsNumber`).  Every concrete program considered here stays within the
  range where IEEE doubles are exact, so the model agrees with the host
  arithmetic there.  (Division by zero differs: JS yields Infinity; no
  theorem below touches that case.)
- Mutable `Environment` objects that are shared by reference (closures) are
  modelled as an arena (`Heap`): a list of environment records addressed by
  index, with the `outer` pointer an index into the same arena.
- TS exceptions of the parser become `Except`; the recursive parser and the
  evaluator take a fuel parameter to make them total Lean functions (fuel
  exhaustion is `Except.error .outOfFuel` / `Option.none` and never occurs
  in any concrete computation below).
- Evaluation errors are ordinary runtime values, exactly as in the source
  (`EvaluationError` objects flowing through the `MObject` channel).
-/

namespace Monkey

/-! ## Tokens (`src/lexer/token.ts`) -/

/-- Token kinds, mirroring the `TokenType` enum of `token.ts`
(keywords get a `K` suffix where the TS name collides with Lean). -/
inductive TokenType where
  | illegal
  | eof
  | ident
  | int
  | string
  | assign
  | plus
  | minus
  | bang
  | asterisk
  | slash
  | lessThan
  | greaterThan
  | equal
  | notEqual
  | comma
  | colon
  | semicolon
  | lparen
  | rparen
  | lbrace
  | rbrace
  | lbracket
  | rbracket
  | functionK
  | letK
  | trueK
  | falseK
  | ifK
  | elseK
  | returnK
  deriving DecidableEq, Repr

/-- A token: `{ type, literal }` as in `token.ts`. -/
structure Token where
  type : TokenType
  literal : String
  deriving DecidableEq, Repr

/-- The keyword table `keywords` plus `lookupIdent` of `token.ts`. -/
def lookupIdent (ident : String) : TokenType :=
  if ident = "fn" then .functionK
  else if ident = "let" then .letK
  else if ident = "true" then .trueK
  else if ident = "false" then .falseK
  else if ident = "if" then .ifK
  else if ident = "else" then .elseK
  else if ident = "return" then .returnK
  else .ident

/-! ## Lexer (`src/lexer/lexer.ts`)

The TS lexer is a cursor machine over the input string; we model the cursor
as the list of characters not yet consumed. -/

/-- `isLetter` of `lexer.ts`: ASCII letters and underscore. -/
def isLetter (c : Char) : Bool :=
  ('a' ≤ c && c ≤ 'z') || ('A' ≤ c && c ≤ 'Z') || c = '_'

/-- `isDigit` of `lexer.ts`. -/
def isDigit (c : Char) : Bool :=
  '0' ≤ c && c ≤ '9'

/-- Whitespace skipped by `skipWhitespace` of `lexer.ts`. -/
def isMonkeyWhitespace (c : Char) : Bool :=
  c = ' ' || c = '\t' || c = '\n' || c = '\r'

/-- One step of `getNextToken` of `lexer.ts`: skip whitespace, then dispatch
on the current character; returns the token and the remaining input. -/
def getNextToken (input : List Char) : Token × List Char :=
  let cs := input.dropWhile isMonkeyWhitespace
  match cs with
  | [] => ({ type := .eof, literal := "" }, [])
  | c :: rest =>
    if c = '=' then
      match rest with
      | '=' :: rest₂ => ({ type := .equal, literal := "==" }, rest₂)
      | _ => ({ type := .assign, literal := "=" }, rest)
    else if c = '!' then
      match rest with
      | '=' :: rest₂ => ({ type := .notEqual, literal := "!=" }, rest₂)
      | _ => ({ type := .bang, literal := "!" }, rest)
    else if c = '+' then ({ type := .plus, literal := "+" }, rest)
    else if c = '-' then ({ type := .minus, literal := "-" }, rest)
    else if c = '/' then ({ type := .slash, literal := "/" }, rest)
    else if c = '*' then ({ type := .asterisk, literal := "*" }, rest)
    else if c = '<' then ({ type := .lessThan, literal := "<" }, rest)
    else if c = '>' then ({ type := .greaterThan, literal := ">" }, rest)
    else if c = ';' then ({ type := .semicolon, literal := ";" }, rest)
    -- Modelled from the spec: the `lexer.ts` revision under `src/` predates
    -- hash-literal support and has no `case ":"`, although its own token
    -- enum declares `Colon = ":"`, `parseHashLiteral` requires Colon tokens
    -- and the repository's parser tests lex hash literals successfully; per
    -- the spec, single-character punctuation maps directly to a token kind.
    else if c = ':' then ({ type := .colon, literal := ":" }, rest)
    else if c = ',' then ({ type := .comma, literal := "," }, rest)
    else if c = '(' then ({ type := .lparen, literal := "(" }, rest)
    else if c = ')' then ({ type := .rparen, literal := ")" }, rest)
    else if c = '{' then ({ type := .lbrace, literal := "\x7b" }, rest)
    else if c = '}' then ({ type := .rbrace, literal := "\x7d" }, rest)
    else if c = '[' then ({ type := .lbracket, literal := "[" }, rest)
    else if c = ']' then ({ type := .rbracket, literal := "]" }, rest)
    else if c = '"' then
      -- `readString`: consume until the next quote or end of input; the
      -- closing quote (when present) is consumed by the trailing `readChar`.
      let content := rest.takeWhile (fun x => x ≠ '"')
      let after := rest.dropWhile (fun x => x ≠ '"')
      let remaining := match after with
        | '"' :: r => r
        | other => other
      ({ type := .string, literal := ⟨content⟩ }, remaining)
    else if isLetter c then
      -- `readIdentifier` + `lookupIdent`
      let lit : String := ⟨(c :: rest).takeWhile isLetter⟩
      ({ type := lookupIdent lit, literal := lit }, (c :: rest).dropWhile isLetter)
    else if isDigit c then
      -- `readNumber`
      let lit : String := ⟨(c :: rest).takeWhile isDigit⟩
      ({ type := .int, literal := lit }, (c :: rest).dropWhile isDigit)
    else
      ({ type := .illegal, literal := ⟨[c]⟩ }, rest)

/-- Repeatedly call `getNextToken` until the end-of-file token, collecting
the token stream (the Eof token included).  The fuel is an upper bound on
the number of tokens; each non-Eof token consumes at least one character,
so `input.length + 1` suffices. -/
def tokenizeGo : Nat → List Char → List Token
  | 0, _ => []
  | fuel + 1, cs =>
    let (tok, rest) := getNextToken cs
    if tok.type = .eof then [tok]
    else tok :: tokenizeGo fuel rest

/-- Tokenize a whole source string. -/
def lex (s : String) : List Token :=
  tokenizeGo (s.length + 1) s.data

/-! ## JavaScript numbers

The evaluator's `Integer` values hold host JS numbers, and the `/` of
`evalIntegerInfixExpression` is the host's exact (non-truncating) division.
We model JS numbers as rationals kept in canonical form (den positive, the
fraction fully reduced), as a plain structure whose operations use only
`Nat`/`Int` primitives, so that every computation reduces definitionally.
Every concrete program considered in this file stays in the range where
IEEE doubles are exact, so the model agrees with the host arithmetic on
them.  (Division by zero differs: JS yields Infinity, which has no
counterpart here; no theorem below touches that case.) -/

/-- A JS number as a canonical fraction: `den` is positive and
`gcd (|num|) den = 1` for every value built by the operations below. -/
structure JsNumber where
  num : Int
  den : Nat
  deriving DecidableEq, Repr

/-- Numerals denote whole numbers. -/
instance (n : Nat) : OfNat JsNumber n := ⟨⟨(n : Int), 1⟩⟩

/-- Build the canonical fraction `num / den` (sign moved to the numerator,
fraction reduced).  A zero denominator never arises from the operations
below; it falls back to `0`. -/
def JsNumber.normalize (num : Int) (den : Int) : JsNumber :=
  let n : Int := if den < 0 then -num else num
  let d : Nat := den.natAbs
  if d = 0 then ⟨0, 1⟩
  else
    let g : Nat := Nat.gcd n.natAbs d
    ⟨n / (g : Int), d / g⟩

/-- Exact addition. -/
def JsNumber.add (a b : JsNumber) : JsNumber :=
  JsNumber.normalize (a.num * (b.den : Int) + b.num * (a.den : Int)) ((a.den * b.den : Nat) : Int)

/-- Exact subtraction. -/
def JsNumber.sub (a b : JsNumber) : JsNumber :=
  JsNumber.normalize (a.num * (b.den : Int) - b.num * (a.den : Int)) ((a.den * b.den : Nat) : Int)

/-- Exact multiplication. -/
def JsNumber.mul (a b : JsNumber) : JsNumber :=
  JsNumber.normalize (a.num * b.num) ((a.den * b.den : Nat) : Int)

/-- Exact division — the host `/` does NOT truncate: `5 / 2` is `5/2`.
(Division by zero is modelled as `0`; JS would give Infinity, and no
theorem in this file exercises that case.) -/
def JsNumber.div (a b : JsNumber) : JsNumber :=
  if b.num = 0 then ⟨0, 1⟩
  else JsNumber.normalize (a.num * (b.den : Int)) (a.den * b.num)

/-- Negation (canonical form is preserved). -/
def JsNumber.neg (a : JsNumber) : JsNumber :=
  ⟨-a.num, a.den⟩

/-- The `<` comparison (cross-multiplication; denominators are positive). -/
def JsNumber.blt (a b : JsNumber) : Bool :=
  a.num * (b.den : Int) < b.num * (a.den : Int)

/-- Whether the value is a whole number, and its integer part. -/
def JsNumber.isWhole (a : JsNumber) : Bool :=
  a.den = 1

/-! ## AST (`src/parser/ast.ts`)

`BlockStatement` is a statement variant holding its statement list; function
bodies and if-branches store that list directly (a `BlockStatement` node is
exactly its `statements` field plus the type tag). -/

mutual

/-- Expression variants of `ast.ts` (`Expression` union). -/
inductive Expr where
  | arrayLit (elements : List Expr)
  | booleanLit (value : Bool)
  | callE (func : Expr) (arguments : List Expr)
  | functionLit (parameters : List String) (body : List Stmt)
  | hashLit (pairs : List (Expr × Expr))
  | ident (value : String)
  | ifE (condition : Expr) (consequence : List Stmt) (alternative : Option (List Stmt))
  | indexE (left : Expr) (index : Expr)
  | infixE (left : Expr) (operator : String) (right : Expr)
  | integerLit (value : JsNumber)
  | prefixE (operator : String) (right : Expr)
  | stringLit (value : String)

/-- Statement variants of `ast.ts` (`Statement` union). -/
inductive Stmt where
  | blockS (statements : List Stmt)
  | exprS (expression : Expr)
  | letS (name : String) (value : Expr)
  | returnS (returnValue : Expr)

end

/-- `Node` of `ast.ts`: program, statement or expression. -/
inductive Node where
  | program (statements : List Stmt)
  | stmt (s : Stmt)
  | expr (e : Expr)

/-! ## Parser (`src/parser/parser.ts`)

Parse errors (`src/parser/error.ts`) become `Except.error`; `outOfFuel` is a
model artifact that never occurs for the concrete inputs below. -/

/-- `ParseError` kinds of `src/parser/error.ts`. -/
inductive PError where
  | unexpectedToken (expected : TokenType) (actual : TokenType)
  | noPrefixParseFn (tokenType : TokenType)
  | outOfFuel
  deriving DecidableEq, Repr

/-- Parser state: `currentToken`, `peekToken` and the tokens not yet pulled
from the lexer (the TS lexer keeps returning Eof once exhausted). -/
structure PState where
  currentToken : Token
  peekToken : Token
  rest : List Token
  deriving Repr

/-- The token the exhausted lexer keeps producing. -/
def eofToken : Token := { type := .eof, literal := "" }

/-- `nextToken` of the parser: shift the lookahead window by one. -/
def pNext (st : PState) : PState :=
  { currentToken := st.peekToken
    peekToken := st.rest.headD eofToken
    rest := st.rest.tail }

/-- The parser constructor: pull the first two tokens. -/
def initPState (tokens : List Token) : PState :=
  { currentToken := tokens.headD eofToken
    peekToken := tokens.tail.headD eofToken
    rest := tokens.tail.tail }

/-- `expectPeek`: consume the peek token when it has the expected type,
report whether it matched. -/
def expectPeek (t : TokenType) (st : PState) : Bool × PState :=
  if st.peekToken.type = t then (true, pNext st) else (false, st)

/-- The `Precedence` enum (`Lowest = 1` up to `Index = 8`). -/
def precLowest : Nat := 1

/-- `Precedence.Equals`. -/
def precEquals : Nat := 2

/-- `Precedence.LessGreater`. -/
def precLessGreater : Nat := 3

/-- `Precedence.Sum`. -/
def precSum : Nat := 4

/-- `Precedence.Product`. -/
def precProduct : Nat := 5

/-- `Precedence.Prefix` (unary operators). -/
def precUnary : Nat := 6

/-- `Precedence.Call`. -/
def precCall : Nat := 7

/-- `Precedence.Index`. -/
def precIndex : Nat := 8

/-- The `precedences` map; absent entries default to Lowest
(`?? Precedence.Lowest` in `getPeekPrecedence`/`getCurrentPrecedence`). -/
def tokenPrecedence (t : TokenType) : Nat :=
  match t with
  | .equal => precEquals
  | .notEqual => precEquals
  | .lessThan => precLessGreater
  | .greaterThan => precLessGreater
  | .plus => precSum
  | .minus => precSum
  | .slash => precProduct
  | .asterisk => precProduct
  | .lparen => precCall
  | .lbracket => precIndex
  | _ => precLowest

/-- JS `parseInt(literal, 10)` on an all-digit literal (the only form the
lexer produces for `Int` tokens). -/
def parseIntLit (s : String) : Nat :=
  s.data.foldl (fun n c => n * 10 + (c.toNat - '0'.toNat)) 0

/-- Token types registered in `infixParseFns`. -/
def hasInfixFn (t : TokenType) : Bool :=
  match t with
  | .plus | .minus | .slash | .asterisk | .equal | .notEqual
  | .lessThan | .greaterThan | .lparen | .lbracket => true
  | _ => false

mutual

/-- The statement-collecting loop of `parseProgram`. -/
def parseProgramGo : Nat → PState → Except PError (List Stmt × PState)
  | 0, _ => .error .outOfFuel
  | fuel + 1, st =>
    if st.currentToken.type = .eof then .ok ([], st)
    else do
      let (s, st₁) ← parseStatement fuel st
      let (rest, st₂) ← parseProgramGo fuel (pNext st₁)
      .ok (s :: rest, st₂)

/-- `parseStatement`: dispatch on the current token. -/
def parseStatement : Nat → PState → Except PError (Stmt × PState)
  | 0, _ => .error .outOfFuel
  | fuel + 1, st =>
    match st.currentToken.type with
    | .letK => parseLetStatement fuel st
    | .returnK => parseReturnStatement fuel st
    | _ => parseExpressionStatement fuel st

/-- `parseLetStatement`. -/
def parseLetStatement : Nat → PState → Except PError (Stmt × PState)
  | 0, _ => .error .outOfFuel
  | fuel + 1, st =>
    let (ok, st₁) := expectPeek .ident st
    if !ok then .error (.unexpectedToken .ident st₁.peekToken.type)
    else
      let name := st₁.currentToken.literal
      let (ok₂, st₂) := expectPeek .assign st₁
      if !ok₂ then .error (.unexpectedToken .assign st₂.peekToken.type)
      else do
        let st₃ := pNext st₂
        let (value, st₄) ← parseExpression fuel precLowest st₃
        let st₅ := if st₄.peekToken.type = .semicolon then pNext st₄ else st₄
        .ok (.letS name value, st₅)

/-- `parseReturnStatement`. -/
def parseReturnStatement : Nat → PState → Except PError (Stmt × PState)
  | 0, _ => .error .outOfFuel
  | fuel + 1, st => do
    let st₁ := pNext st
    let (rv, st₂) ← parseExpression fuel precLowest st₁
    let st₃ := if st₂.peekToken.type = .semicolon then pNext st₂ else st₂
    .ok (.returnS rv, st₃)

/-- `parseExpressionStatement`. -/
def parseExpressionStatement : Nat → PState → Except PError (Stmt × PState)
  | 0, _ => .error .outOfFuel
  | fuel + 1, st => do
    let (e, st₁) ← parseExpression fuel precLowest st
    let st₂ := if st₁.peekToken.type = .semicolon then pNext st₁ else st₁
    .ok (.exprS e, st₂)

/-- `parseExpression`: Pratt parsing — one prefix handler, then the
precedence-climbing loop. -/
def parseExpression : Nat → Nat → PState → Except PError (Expr × PState)
  | 0, _, _ => .error .outOfFuel
  | fuel + 1, precedence, st => do
    let (leftExp, st₁) ← parsePrefixDispatch fuel st
    parseExprLoop fuel precedence leftExp st₁

/-- The `prefixParseFns` table lookup plus call; a missing entry raises
`NoPrefixParseFunctionError`.  The literal-only handlers
(`parseIdentifier`, `parseIntegerLiteral`, `parseBoolean`,
`parseStringLiteral`) are inlined. -/
def parsePrefixDispatch : Nat → PState → Except PError (Expr × PState)
  | 0, _ => .error .outOfFuel
  | fuel + 1, st =>
    match st.currentToken.type with
    | .ident => .ok (.ident st.currentToken.literal, st)
    | .ifK => parseIfExpression fuel st
    | .int => .ok (.integerLit ⟨((parseIntLit st.currentToken.literal : Nat) : Int), 1⟩, st)
    | .bang => parsePrefixExpression fuel st
    | .minus => parsePrefixExpression fuel st
    | .trueK => .ok (.booleanLit true, st)
    | .falseK => .ok (.booleanLit false, st)
    | .lparen => parseGroupedExpression fuel st
    | .functionK => parseFunctionLiteral fuel st
    | .string => .ok (.stringLit st.currentToken.literal, st)
    | .lbracket => parseArrayLiteral fuel st
    | .lbrace => parseHashLiteral fuel st
    | t => .error (.noPrefixParseFn t)

/-- The while-loop of `parseExpression`: as long as the peek token is not a
semicolon and binds tighter than the caller's precedence, consume it as an
infix continuation (left-to-right folding). -/
def parseExprLoop : Nat → Nat → Expr → PState → Except PError (Expr × PState)
  | 0, _, _, _ => .error .outOfFuel
  | fuel + 1, precedence, leftExp, st =>
    if st.peekToken.type ≠ .semicolon ∧ precedence < tokenPrecedence st.peekToken.type then
      if hasInfixFn st.peekToken.type then do
        let st₁ := pNext st
        let (leftExp₂, st₂) ← parseInfixDispatch fuel leftExp st₁
        parseExprLoop fuel precedence leftExp₂ st₂
      else .ok (leftExp, st)
    else .ok (leftExp, st)

/-- The `infixParseFns` dispatch (`(` means call, `[` means index, the
operator tokens all map to `parseInfixExpression`). -/
def parseInfixDispatch : Nat → Expr → PState → Except PError (Expr × PState)
  | 0, _, _ => .error .outOfFuel
  | fuel + 1, leftExp, st =>
    match st.currentToken.type with
    | .lparen => parseCallExpression fuel leftExp st
    | .lbracket => parseIndexExpression fuel leftExp st
    | _ => parseInfixExpression fuel leftExp st

/-- `parseInfixExpression`: left-associative binary operator. -/
def parseInfixExpression : Nat → Expr → PState → Except PError (Expr × PState)
  | 0, _, _ => .error .outOfFuel
  | fuel + 1, leftExp, st => do
    let operator := st.currentToken.literal
    let precedence := tokenPrecedence st.currentToken.type
    let st₁ := pNext st
    let (right, st₂) ← parseExpression fuel precedence st₁
    .ok (.infixE leftExp operator right, st₂)

/-- `parseCallExpression`. -/
def parseCallExpression : Nat → Expr → PState → Except PError (Expr × PState)
  | 0, _, _ => .error .outOfFuel
  | fuel + 1, fnExp, st => do
    let (args, st₁) ← parseExpressionList fuel .rparen st
    .ok (.callE fnExp args, st₁)

/-- `parseIndexExpression`. -/
def parseIndexExpression : Nat → Expr → PState → Except PError (Expr × PState)
  | 0, _, _ => .error .outOfFuel
  | fuel + 1, leftExp, st => do
    let st₁ := pNext st
    let (index, st₂) ← parseExpression fuel precLowest st₁
    let (ok, st₃) := expectPeek .rbracket st₂
    if ok then .ok (.indexE leftExp index, st₃)
    else .error (.unexpectedToken .rbracket st₃.peekToken.type)

/-- `parsePrefixExpression`: unary `-`/`!`. -/
def parsePrefixExpression : Nat → PState → Except PError (Expr × PState)
  | 0, _ => .error .outOfFuel
  | fuel + 1, st => do
    let operator := st.currentToken.literal
    let st₁ := pNext st
    let (right, st₂) ← parseExpression fuel precUnary st₁
    .ok (.prefixE operator right, st₂)

/-- `parseGroupedExpression`.  NOTE (faithful to the source,
`parser.ts` line 438): on a missing closing parenthesis the thrown
`UnexpectedTokenError` reports `TokenType.RBrace` as the expected kind,
although the check one line above is `expectPeek(TokenType.RParen)`. -/
def parseGroupedExpression : Nat → PState → Except PError (Expr × PState)
  | 0, _ => .error .outOfFuel
  | fuel + 1, st => do
    let st₁ := pNext st
    let (e, st₂) ← parseExpression fuel precLowest st₁
    let (ok, st₃) := expectPeek .rparen st₂
    if ok then .ok (e, st₃)
    else .error (.unexpectedToken .rbrace st₃.peekToken.type)

/-- `parseIfExpression`. -/
def parseIfExpression : Nat → PState → Except PError (Expr × PState)
  | 0, _ => .error .outOfFuel
  | fuel + 1, st =>
    let (ok, st₁) := expectPeek .lparen st
    if !ok then .error (.unexpectedToken .lparen st₁.peekToken.type)
    else do
      let st₂ := pNext st₁
      let (condition, st₃) ← parseExpression fuel precLowest st₂
      let (ok₂, st₄) := expectPeek .rparen st₃
      if !ok₂ then .error (.unexpectedToken .rparen st₄.peekToken.type)
      else
        let (ok₃, st₅) := expectPeek .lbrace st₄
        if !ok₃ then .error (.unexpectedToken .lbrace st₅.peekToken.type)
        else do
          let (consequence, st₆) ← parseBlockStatement fuel st₅
          if st₆.peekToken.type = .elseK then
            let st₇ := pNext st₆
            let (ok₄, st₈) := expectPeek .lbrace st₇
            if !ok₄ then .error (.unexpectedToken .lbrace st₈.peekToken.type)
            else do
              let (alternative, st₉) ← parseBlockStatement fuel st₈
              .ok (.ifE condition consequence (some alternative), st₉)
          else .ok (.ifE condition consequence none, st₆)

/-- The statement loop of `parseBlockStatement`. -/
def parseBlockGo : Nat → List Stmt → PState → Except PError (List Stmt × PState)
  | 0, _, _ => .error .outOfFuel
  | fuel + 1, acc, st =>
    if st.currentToken.type = .rbrace ∨ st.currentToken.type = .eof then .ok (acc, st)
    else do
      let (s, st₁) ← parseStatement fuel st
      parseBlockGo fuel (acc ++ [s]) (pNext st₁)

/-- `parseBlockStatement`: consume the opening brace, then statements up to
the closing brace or Eof. -/
def parseBlockStatement : Nat → PState → Except PError (List Stmt × PState)
  | 0, _ => .error .outOfFuel
  | fuel + 1, st => parseBlockGo fuel [] (pNext st)

/-- `parseFunctionLiteral`. -/
def parseFunctionLiteral : Nat → PState → Except PError (Expr × PState)
  | 0, _ => .error .outOfFuel
  | fuel + 1, st =>
    let (ok, st₁) := expectPeek .lparen st
    if !ok then .error (.unexpectedToken .lparen st₁.peekToken.type)
    else do
      let (parameters, st₂) ← parseFunctionParameters fuel st₁
      let (ok₂, st₃) := expectPeek .lbrace st₂
      if !ok₂ then .error (.unexpectedToken .lbrace st₃.peekToken.type)
      else do
        let (body, st₄) ← parseBlockStatement fuel st₃
        .ok (.functionLit parameters body, st₄)

/-- `parseFunctionParameters` (note: `parseIdentifier` takes the current
token's literal without checking the token type, exactly as the source). -/
def parseFunctionParameters : Nat → PState → Except PError (List String × PState)
  | 0, _ => .error .outOfFuel
  | fuel + 1, st =>
    if st.peekToken.type = .rparen then .ok ([], pNext st)
    else
      let st₁ := pNext st
      parseFunctionParametersGo fuel [st₁.currentToken.literal] st₁

/-- The comma loop of `parseFunctionParameters` plus the final `)` check. -/
def parseFunctionParametersGo : Nat → List String → PState → Except PError (List String × PState)
  | 0, _, _ => .error .outOfFuel
  | fuel + 1, acc, st =>
    if st.peekToken.type = .comma then
      let st₁ := pNext (pNext st)
      parseFunctionParametersGo fuel (acc ++ [st₁.currentToken.literal]) st₁
    else
      let (ok, st₁) := expectPeek .rparen st
      if ok then .ok (acc, st₁)
      else .error (.unexpectedToken .rparen st₁.peekToken.type)

/-- `parseArrayLiteral`. -/
def parseArrayLiteral : Nat → PState → Except PError (Expr × PState)
  | 0, _ => .error .outOfFuel
  | fuel + 1, st => do
    let (elements, st₁) ← parseExpressionList fuel .rbracket st
    .ok (.arrayLit elements, st₁)

/-- `parseExpressionList`: the empty-list shortcut, then the first element. -/
def parseExpressionList : Nat → TokenType → PState → Except PError (List Expr × PState)
  | 0, _, _ => .error .outOfFuel
  | fuel + 1, endTok, st =>
    if st.peekToken.type = endTok then .ok ([], pNext st)
    else do
      let st₁ := pNext st
      let (e, st₂) ← parseExpression fuel precLowest st₁
      parseExpressionListGo fuel endTok [e] st₂

/-- The comma loop of `parseExpressionList` plus the final terminator check. -/
def parseExpressionListGo : Nat → TokenType → List Expr → PState → Except PError (List Expr × PState)
  | 0, _, _, _ => .error .outOfFuel
  | fuel + 1, endTok, acc, st =>
    if st.peekToken.type = .comma then do
      let st₁ := pNext (pNext st)
      let (e, st₂) ← parseExpression fuel precLowest st₁
      parseExpressionListGo fuel endTok (acc ++ [e]) st₂
    else
      let (ok, st₁) := expectPeek endTok st
      if ok then .ok (acc, st₁)
      else .error (.unexpectedToken endTok st₁.peekToken.type)

/-- `parseHashLiteral`: pairs loop (the TS `Map<Expression, Expression>`
keyed by object identity never collides, so pairs simply accumulate). -/
def parseHashLiteral : Nat → PState → Except PError (Expr × PState)
  | 0, _ => .error .outOfFuel
  | fuel + 1, st => parseHashLiteralGo fuel [] st

/-- The while-loop of `parseHashLiteral` plus the final `}` check. -/
def parseHashLiteralGo : Nat → List (Expr × Expr) → PState → Except PError (Expr × PState)
  | 0, _, _ => .error .outOfFuel
  | fuel + 1, pairs, st =>
    if st.peekToken.type ≠ .rbrace then do
      let st₁ := pNext st
      let (key, st₂) ← parseExpression fuel precLowest st₁
      let (ok, st₃) := expectPeek .colon st₂
      if !ok then .error (.unexpectedToken .colon st₃.peekToken.type)
      else do
        let st₄ := pNext st₃
        let (value, st₅) ← parseExpression fuel precLowest st₄
        let pairs₂ := pairs ++ [(key, value)]
        let isLastPair := st₅.peekToken.type = .rbrace
        if isLastPair then parseHashLiteralGo fuel pairs₂ st₅
        else
          let (ok₂, st₆) := expectPeek .comma st₅
          if !ok₂ then .error (.unexpectedToken .comma st₆.peekToken.type)
          else parseHashLiteralGo fuel pairs₂ st₆
    else
      let (ok, st₁) := expectPeek .rbrace st
      if ok then .ok (.hashLit pairs, st₁)
      else .error (.unexpectedToken .rbrace st₁.peekToken.type)

end

/-- `parseProgram` on a source string, with fuel ample for the inputs
considered (the parser's recursion depth is linear in the input length). -/
def parseSource (s : String) : Except PError (List Stmt) :=
  match parseProgramGo ((s.length + 8) * 4) (initPState (lex s)) with
  | .ok (statements, _) => .ok statements
  | .error e => .error e

/-! ## Printer (`src/parser/printer.ts`)

The TS `print` has a `switch` over `node.type` with no `HashLiteral` case
and no `default`; calling it on a hash literal falls through the switch and
returns `undefined`.  We model the result as `Option String`, with `none`
standing for `undefined`.  Two JS coercions matter when a sub-result is
`undefined`: template-literal interpolation renders it as the text
`"undefined"`, while `Array.prototype.join` renders it as the empty
string. -/

/-- JS template-literal interpolation of a possibly-undefined string. -/
def jsInterp (o : Option String) : String :=
  o.getD "undefined"

/-- JS `array.join(sep)` over possibly-undefined elements. -/
def jsJoin (l : List (Option String)) (sep : String) : String :=
  String.intercalate sep (l.map (fun o => o.getD ""))

/-- JS `Boolean.prototype.toString`. -/
def jsBoolToString (b : Bool) : String :=
  if b then "true" else "false"

/-- JS `Number.prototype.toString` restricted to the values occurring here
(the parser only ever stores non-negative whole numbers in
`IntegerLiteral.value`). -/
def jsNumberToString (q : JsNumber) : String :=
  if q.den = 1 then toString q.num else toString q.num ++ "/" ++ toString q.den

mutual

/-- The expression cases of `print`.  The `HashLiteral` case is absent from
the source switch, so a hash literal yields `none` (`undefined`). -/
def printExpr : Expr → Option String
  | .arrayLit elements => some ("[" ++ jsJoin (printExprList elements) ", " ++ "]")
  | .booleanLit value => some (jsBoolToString value)
  | .callE func arguments =>
    some (jsInterp (printExpr func) ++ "(" ++ jsJoin (printExprList arguments) ", " ++ ")")
  | .functionLit parameters body =>
    some ("fn (" ++ String.intercalate ", " parameters ++ ") " ++ jsJoin (printStmtList body) "\n")
  | .hashLit _ => none
  | .ident value => some value
  | .ifE condition consequence alternative =>
    some ("if " ++ jsInterp (printExpr condition) ++ " " ++ jsJoin (printStmtList consequence) "\n"
      ++ (match alternative with
          | some a => "else " ++ jsJoin (printStmtList a) "\n"
          | none => ""))
  | .indexE left index =>
    some ("(" ++ jsInterp (printExpr left) ++ "[" ++ jsInterp (printExpr index) ++ "])")
  | .integerLit value => some (jsNumberToString value)
  | .prefixE operator right => some ("(" ++ operator ++ jsInterp (printExpr right) ++ ")")
  | .infixE left operator right =>
    some ("(" ++ jsInterp (printExpr left) ++ " " ++ operator ++ " "
      ++ jsInterp (printExpr right) ++ ")")
  | .stringLit value => some ("\"" ++ value ++ "\"")

/-- The statement cases of `print`. -/
def printStmt : Stmt → Option String
  | .blockS statements => some (jsJoin (printStmtList statements) "\n")
  | .exprS expression => some (jsInterp (printExpr expression) ++ ";")
  | .letS name value => some ("let " ++ name ++ " = " ++ jsInterp (printExpr value) ++ ";")
  | .returnS returnValue => some ("return " ++ jsInterp (printExpr returnValue) ++ ";")

/-- `statements.map(print)` for a statement list. -/
def printStmtList : List Stmt → List (Option String)
  | [] => []
  | s :: rest => printStmt s :: printStmtList rest

/-- `elements.map(print)` for an expression list. -/
def printExprList : List Expr → List (Option String)
  | [] => []
  | e :: rest => printExpr e :: printExprList rest

end

/-- `print` of `printer.ts` over any `Node`. -/
def print : Node → Option String
  | .program statements => some (jsJoin (printStmtList statements) "\n")
  | .stmt s => printStmt s
  | .expr e => printExpr e

/-- `print(parse(s))` for a whole source string. -/
def printSource (s : String) : Option String :=
  match parseSource s with
  | .ok statements => print (.program statements)
  | .error _ => none

/-! ## Runtime objects (`src/evaluator/object.ts`, `src/evaluator/error.ts`)

All booleans and nulls produced by the evaluator are the process-wide
singletons `TRUE`/`FALSE`/`NULL`, so the identity comparisons of the source
coincide with structural equality here.  `MFunction.env` is an index into
the environment arena.  Hash pairs are keyed by `key.inspect()` strings with
JS-`Map` insertion-order/overwrite semantics.  `EvaluationError` subclasses
become the `error` constructor carrying the error kind (the subclass) and
its formatted message. -/

/-- The `EvaluationError` subclasses of `src/evaluator/error.ts`. -/
inductive ErrKind where
  | argumentNotSupported
  | argumentWrongNumber
  | identifierNotFound
  | indexOperatorNotSupported
  | invalidHashKey
  | notAFunction
  | typeMismatch
  | unknownOperator
  deriving DecidableEq, Repr

/-- Runtime values (`MObject` and its implementations in `object.ts`,
plus `EvaluationError`).  Hash pairs store the inspect-string key alongside
the `{key, value}` record. -/
inductive MObject where
  | integer (value : JsNumber)
  | boolean (value : Bool)
  | str (value : String)
  | null
  | returnValue (value : MObject)
  | func (parameters : List String) (body : List Stmt) (env : Nat)
  | builtin (name : String)
  | array (elements : List MObject)
  | hash (pairs : List (String × MObject × MObject))
  | error (kind : ErrKind) (message : String)

/-- JS `Number.prototype.toFixed(0)`: round `|q|` to the nearest integer,
ties upward, then re-attach the sign, per the ECMA algorithm
(`⌊|q| + 1/2⌋` computed on the canonical fraction). -/
def jsToFixed0 (q : JsNumber) : String :=
  let rounded : Nat := (2 * q.num.natAbs + q.den) / (2 * q.den)
  if q.num < 0 then "-" ++ toString rounded else toString rounded

mutual

/-- `inspect()` of each `MObject` implementation. -/
def inspect : MObject → String
  | .integer value => jsToFixed0 value
  | .boolean value => jsBoolToString value
  | .str value => "\"" ++ value ++ "\""
  | .null => "null"
  | .returnValue value => inspect value
  | .func parameters body _ =>
    "fn(" ++ String.intercalate ", " parameters ++ ") \x7b\n  "
      ++ jsJoin (printStmtList body) "\n" ++ "\n\x7d"
  | .builtin _ => "builtin function"
  | .array elements => "[" ++ String.intercalate ", " (inspectList elements) ++ "]"
  | .hash pairs => "\x7b" ++ String.intercalate ", " (inspectPairs pairs) ++ "\x7d"
  | .error _ message => message

/-- `elements.map((e) => e.inspect())`. -/
def inspectList : List MObject → List String
  | [] => []
  | x :: rest => inspect x :: inspectList rest

/-- The pair rendering of `Hash.inspect`. -/
def inspectPairs : List (String × MObject × MObject) → List String
  | [] => []
  | (_, k, v) :: rest => (inspect k ++ ": " ++ inspect v) :: inspectPairs rest

end

/-- `constructor.name` of a runtime value's class, used by the type-mismatch
fallback of `evalInfixExpression`. -/
def ctorName : MObject → String
  | .integer _ => "Integer"
  | .boolean _ => "MBoolean"
  | .str _ => "MString"
  | .null => "Null"
  | .returnValue _ => "ReturnValue"
  | .func _ _ _ => "MFunction"
  | .builtin _ => "Builtin"
  | .array _ => "MArray"
  | .hash _ => "Hash"
  | .error _ _ => "EvaluationError"

/-- `isError` of `evaluator.ts` (`instanceof EvaluationError`). -/
def isError : MObject → Bool
  | .error _ _ => true
  | _ => false

/-- `instanceof ReturnValue`. -/
def isReturnValue : MObject → Bool
  | .returnValue _ => true
  | _ => false

/-- `unwrapReturnValue` of `evaluator.ts`. -/
def unwrapReturnValue : MObject → MObject
  | .returnValue v => v
  | obj => obj

/-- `nativeBoolToBooleanObject` (returns the `TRUE`/`FALSE` singleton). -/
def nativeBoolToBooleanObject (input : Bool) : MObject :=
  .boolean input

/-- `isTruthy` of `evaluator.ts`: not the `NULL` singleton and not the
`FALSE` singleton. -/
def isTruthy : MObject → Bool
  | .null => false
  | .boolean false => false
  | _ => true

/-! ## Environments (`src/evaluator/environment.ts`)

An `Environment` holds a `Map<string, MObject>` and an optional outer
reference.  Because `extendFunctionEnv` can call `env.set(name, args[idx])`
with `idx` out of range, the stored value can be JS `undefined`; we keep
store values as `Option MObject` (`none` = `undefined`).  `Environment.get`
treats a name bound to `undefined` exactly like an absent name (`!value`),
falling through to the outer chain.  Environments are arena-allocated: a
`Heap` is the list of all environments created so far, and the `outer`
field is an index of an earlier entry. -/

/-- One mutable environment record. -/
structure Env where
  store : List (String × Option MObject)
  outer : Option Nat

/-- The arena of environments. -/
abbrev Heap := List Env

/-- JS `Map.prototype.set`: overwrite in place, else append. -/
def storeSet (st : List (String × Option MObject)) (k : String) (v : Option MObject) :
    List (String × Option MObject) :=
  match st with
  | [] => [(k, v)]
  | (k₁, v₁) :: rest => if k₁ = k then (k, v) :: rest else (k₁, v₁) :: storeSet rest k v

/-- JS `Map.prototype.get` (first matching key). -/
def storeAssoc (st : List (String × Option MObject)) (k : String) : Option (Option MObject) :=
  match st with
  | [] => none
  | (k₁, v₁) :: rest => if k₁ = k then some v₁ else storeAssoc rest k

/-- `Environment.get`, walking the outer chain: a hit on a name bound to a
real value returns it; an absent name or one bound to `undefined` recurses
into the outer environment.  The fuel bounds the chain length; every heap
built by the evaluator has `outer` indices strictly below the referring
index, so `idx + 1` steps always suffice (see `envGet`). -/
def envGetAux : Nat → Heap → Nat → String → Option MObject
  | 0, _, _, _ => none
  | fuel + 1, heap, idx, name =>
    match heap.get? idx with
    | none => none
    | some e =>
      match storeAssoc e.store name with
      | some (some v) => some v
      | _ =>
        match e.outer with
        | some o => envGetAux fuel heap o name
        | none => none

/-- `Environment.get` on the arena. -/
def envGet (heap : Heap) (idx : Nat) (name : String) : Option MObject :=
  envGetAux (idx + 1) heap idx name

/-- `Environment.set` on the arena (always binds in the addressed
environment, never in an outer one). -/
def envSet (heap : Heap) (idx : Nat) (name : String) (v : Option MObject) : Heap :=
  match heap.get? idx with
  | none => heap
  | some e => heap.set idx { e with store := storeSet e.store name v }

/-- Heap well-formedness: every `outer` pointer refers to an earlier arena
slot.  Evaluation preserves this (new environments point at existing ones),
and it makes the `envGet` fuel bound exact. -/
def heapWFAux : Nat → List Env → Bool
  | _, [] => true
  | i, e :: rest =>
    (match e.outer with
     | none => true
     | some o => decide (o < i)) && heapWFAux (i + 1) rest

/-- Heap well-formedness from slot 0. -/
def heapWF (heap : Heap) : Bool :=
  heapWFAux 0 heap

/-! ## Built-ins (`src/evaluator/builtins.ts`) -/

/-- `ArgumentWrongNumberError`'s message. -/
def argumentWrongNumberMsg (expected got : Nat) : String :=
  "Wrong number of arguments: expected " ++ toString expected ++ ", got " ++ toString got

/-- The body of each builtin (the `BuiltinFunction` closures of
`builtins.ts`), dispatched by name. -/
def applyBuiltin (name : String) (args : List MObject) : MObject :=
  if name = "len" then
    match args with
    | [.str s] => .integer ⟨(s.length : Int), 1⟩
    | [.array elements] => .integer ⟨(elements.length : Int), 1⟩
    | [arg] => .error .argumentNotSupported ("Argument to 'len' not supported, got " ++ inspect arg)
    | _ => .error .argumentWrongNumber (argumentWrongNumberMsg 1 args.length)
  else if name = "first" then
    match args with
    | [.array elements] => elements.headD .null
    | [arg] => .error .argumentNotSupported ("Argument to 'first' must be an array, got " ++ inspect arg)
    | _ => .error .argumentWrongNumber (argumentWrongNumberMsg 1 args.length)
  else if name = "last" then
    match args with
    | [.array elements] => elements.getLastD .null
    | [arg] => .error .argumentNotSupported ("Argument to 'last' must be an array, got " ++ inspect arg)
    | _ => .error .argumentWrongNumber (argumentWrongNumberMsg 1 args.length)
  else if name = "rest" then
    match args with
    | [.array elements] =>
      if elements.length > 0 then .array elements.tail else .null
    | [arg] => .error .argumentNotSupported ("Argument to 'rest' must be an array, got " ++ inspect arg)
    | _ => .error .argumentWrongNumber (argumentWrongNumberMsg 1 args.length)
  else if name = "push" then
    match args with
    | [.array elements, element] => .array (elements ++ [element])
    | [arg, _] => .error .argumentNotSupported ("First argument to 'push' must be an array, got " ++ inspect arg)
    | _ => .error .argumentWrongNumber (argumentWrongNumberMsg 2 args.length)
  else .null

/-- The `builtins` table lookup (`builtins[node.value]`). -/
def builtinsFind (name : String) : Option MObject :=
  if name = "len" ∨ name = "first" ∨ name = "last" ∨ name = "rest" ∨ name = "push" then
    some (.builtin name)
  else none

/-! ## Evaluator (`src/evaluator/evaluator.ts`)

The recursive parts (`evaluate` and the helpers that re-enter it) take a
fuel parameter and live in one mutual block; the purely value-level helpers
are plain functions.  `evaluate` returns `none` only on fuel exhaustion. -/

/-- `evalBangOperatorExpression`: the fixed singleton table. -/
def evalBangOperatorExpression (right : MObject) : MObject :=
  match right with
  | .boolean true => .boolean false
  | .boolean false => .boolean true
  | .null => .boolean true
  | _ => .boolean false

/-- `evalMinusPrefixOperatorExpression`: only `Integer` is negatable. -/
def evalMinusPrefixOperatorExpression (right : MObject) : MObject :=
  match right with
  | .integer v => .integer v.neg
  | _ => .error .unknownOperator ("Unknown operator: -" ++ inspect right)

/-- `evalPrefixExpression`. -/
def evalPrefixExpression (operator : String) (right : MObject) : MObject :=
  if operator = "!" then evalBangOperatorExpression right
  else if operator = "-" then evalMinusPrefixOperatorExpression right
  else .error .unknownOperator ("Unknown operator: " ++ operator ++ inspect right)

/-- `evalBooleanInfixExpression`: only `==`/`!=` are defined on booleans. -/
def evalBooleanInfixExpression (operator : String) (left right : Bool) : MObject :=
  if operator = "==" then nativeBoolToBooleanObject (left = right)
  else if operator = "!=" then nativeBoolToBooleanObject (left ≠ right)
  else .error .unknownOperator
    ("Unknown operator: " ++ jsBoolToString left ++ " " ++ operator ++ " " ++ jsBoolToString right)

/-- `evalIntegerInfixExpression`.  The `/` case is the host JS `/` on
numbers, which is exact (non-truncating) division — `5 / 2` produces the
value `5/2`, not `2`. -/
def evalIntegerInfixExpression (operator : String) (left right : JsNumber) : MObject :=
  if operator = "+" then .integer (left.add right)
  else if operator = "-" then .integer (left.sub right)
  else if operator = "*" then .integer (left.mul right)
  else if operator = "/" then .integer (left.div right)
  else if operator = "<" then nativeBoolToBooleanObject (left.blt right)
  else if operator = ">" then nativeBoolToBooleanObject (right.blt left)
  else if operator = "==" then nativeBoolToBooleanObject (decide (left = right))
  else if operator = "!=" then nativeBoolToBooleanObject (!decide (left = right))
  else .error .unknownOperator
    ("Unknown operator: " ++ jsToFixed0 left ++ " " ++ operator ++ " " ++ jsToFixed0 right)

/-- `evalStringInfixExpression`: only `+` (concatenation). -/
def evalStringInfixExpression (operator : String) (left right : String) : MObject :=
  if operator = "+" then .str (left ++ right)
  else .error .unknownOperator
    ("Unknown operator: \"" ++ left ++ "\" " ++ operator ++ " \"" ++ right ++ "\"")

/-- `evalInfixExpression`: dispatch on the runtime type pairing, with the
type-mismatch check (`constructor.name` comparison) as the fallback. -/
def evalInfixExpression (operator : String) (left right : MObject) : MObject :=
  match left, right with
  | .boolean l, .boolean r => evalBooleanInfixExpression operator l r
  | .integer l, .integer r => evalIntegerInfixExpression operator l r
  | .str l, .str r => evalStringInfixExpression operator l r
  | l, r =>
    if ctorName l ≠ ctorName r then
      .error .typeMismatch
        ("Type mismatch: " ++ inspect l ++ " " ++ operator ++ " " ++ inspect r)
    else
      .error .unknownOperator
        ("Unknown operator: " ++ inspect l ++ " " ++ operator ++ " " ++ inspect r)

/-- `evalArrayIndexExpression`: out-of-range yields `NULL`.  (For an
integral in-range index the element is returned; a fractional in-range
index would produce JS `undefined`, which no program below can reach, and
is modelled as `NULL`.) -/
def evalArrayIndexExpression (elements : List MObject) (idx : JsNumber) : MObject :=
  let maxIdx : JsNumber := ⟨(elements.length : Int) - 1, 1⟩
  if idx.num < 0 ∨ JsNumber.blt maxIdx idx then .null
  else if idx.isWhole then (elements.get? idx.num.toNat).getD .null
  else .null

/-- JS-`Map` overwrite-or-append on hash pairs keyed by inspect string. -/
def hashPairsSet (pairs : List (String × MObject × MObject)) (k : String)
    (kv : MObject × MObject) : List (String × MObject × MObject) :=
  match pairs with
  | [] => [(k, kv)]
  | (k₁, kv₁) :: rest => if k₁ = k then (k, kv) :: rest else (k₁, kv₁) :: hashPairsSet rest k kv

/-- JS-`Map` lookup on hash pairs. -/
def hashPairsGet (pairs : List (String × MObject × MObject)) (k : String) :
    Option (MObject × MObject) :=
  match pairs with
  | [] => none
  | (k₁, kv₁) :: rest => if k₁ = k then some kv₁ else hashPairsGet rest k

/-- Whether a value is a legal hash key (`MString`, `Integer`, `MBoolean`). -/
def isHashable : MObject → Bool
  | .str _ => true
  | .integer _ => true
  | .boolean _ => true
  | _ => false

/-- `evalHashIndexExpression`: non-hashable index errors, missing key is
`NULL`. -/
def evalHashIndexExpression (pairs : List (String × MObject × MObject))
    (index : MObject) : MObject :=
  if !isHashable index then
    .error .invalidHashKey
      ("Hash key must be string, integer, or boolean, got: " ++ inspect index)
  else
    match hashPairsGet pairs (inspect index) with
    | some (_, value) => value
    | none => .null

/-- `evalIndexExpression`. -/
def evalIndexExpression (left index : MObject) : MObject :=
  match left, index with
  | .array elements, .integer idx => evalArrayIndexExpression elements idx
  | .hash pairs, _ => evalHashIndexExpression pairs index
  | l, _ => .error .indexOperatorNotSupported ("Index operator not supported: " ++ inspect l)

/-- `evalIdentifier`: environment chain first, then the builtin table, then
an "identifier not found" error. -/
def evalIdentifier (heap : Heap) (envIdx : Nat) (name : String) : MObject :=
  match envGet heap envIdx name with
  | some v => v
  | none =>
    match builtinsFind name with
    | some b => b
    | none => .error .identifierNotFound ("Identifier not found: " ++ name)

/-- The `forEach` of `extendFunctionEnv`: bind each parameter name to
`args[idx]` in order; an out-of-range index binds JS `undefined`
(`Option.none`). -/
def bindParamsGo : List String → Nat → List MObject → List (String × Option MObject) →
    List (String × Option MObject)
  | [], _, _, st => st
  | p :: ps, idx, args, st => bindParamsGo ps (idx + 1) args (storeSet st p (args.get? idx))

/-- `extendFunctionEnv`: allocate a fresh environment whose outer reference
is the function's captured defining environment (not the caller's), bind
parameters positionally, and return its arena index with the grown arena. -/
def extendFunctionEnv (parameters : List String) (fnEnv : Nat) (args : List MObject)
    (heap : Heap) : Nat × Heap :=
  (heap.length, heap ++ [{ store := bindParamsGo parameters 0 args [], outer := some fnEnv }])

mutual

/-- `evaluate(node, env)`: the top-level dispatch of `evaluator.ts`.
Fuel exhaustion (and only fuel exhaustion) yields `none`. -/
def evaluate : Nat → Node → Nat → Heap → Option (MObject × Heap)
  | 0, _, _, _ => none
  | fuel + 1, node, envIdx, heap =>
    match node with
    | .program statements => evalProgramGo fuel statements envIdx heap .null
    | .stmt (.blockS statements) => evalBlockGo fuel statements envIdx heap .null
    | .stmt (.exprS expression) => evaluate fuel (.expr expression) envIdx heap
    | .stmt (.letS name value) => do
      let (v, heap₁) ← evaluate fuel (.expr value) envIdx heap
      if isError v then some (v, heap₁)
      else some (.null, envSet heap₁ envIdx name (some v))
    | .stmt (.returnS returnValue) => do
      let (v, heap₁) ← evaluate fuel (.expr returnValue) envIdx heap
      if isError v then some (v, heap₁)
      else some (.returnValue v, heap₁)
    | .expr (.arrayLit elements) => do
      let (els, heap₁) ← evalExpressionsGo fuel elements envIdx heap []
      match els with
      | [e] => if isError e then some (e, heap₁) else some (.array [e], heap₁)
      | _ => some (.array els, heap₁)
    | .expr (.booleanLit value) => some (nativeBoolToBooleanObject value, heap)
    | .expr (.callE func arguments) => do
      let (fn, heap₁) ← evaluate fuel (.expr func) envIdx heap
      if isError fn then some (fn, heap₁)
      else do
        let (args, heap₂) ← evalExpressionsGo fuel arguments envIdx heap₁ []
        match args with
        | [a] =>
          if isError a then some (a, heap₂)
          else applyFunction fuel fn [a] heap₂
        | _ => applyFunction fuel fn args heap₂
    | .expr (.functionLit parameters body) => some (.func parameters body envIdx, heap)
    | .expr (.hashLit pairs) => evalHashPairsGo fuel pairs envIdx heap []
    | .expr (.ident value) => some (evalIdentifier heap envIdx value, heap)
    | .expr (.ifE condition consequence alternative) =>
      evalIfExpression fuel condition consequence alternative envIdx heap
    | .expr (.indexE left index) => do
      let (l, heap₁) ← evaluate fuel (.expr left) envIdx heap
      if isError l then some (l, heap₁)
      else do
        let (i, heap₂) ← evaluate fuel (.expr index) envIdx heap₁
        if isError i then some (i, heap₂)
        else some (evalIndexExpression l i, heap₂)
    | .expr (.infixE left operator right) => do
      let (l, heap₁) ← evaluate fuel (.expr left) envIdx heap
      if isError l then some (l, heap₁)
      else do
        let (r, heap₂) ← evaluate fuel (.expr right) envIdx heap₁
        if isError r then some (r, heap₂)
        else some (evalInfixExpression operator l r, heap₂)
    | .expr (.integerLit value) => some (.integer value, heap)
    | .expr (.prefixE operator right) => do
      let (r, heap₁) ← evaluate fuel (.expr right) envIdx heap
      if isError r then some (r, heap₁)
      else some (evalPrefixExpression operator r, heap₁)
    | .expr (.stringLit value) => some (.str value, heap)
  termination_by structural fuel => fuel

/-- The statement loop of `evalProgram`: stop early on an error; a
`ReturnValue` result is unwrapped (one layer) into the program result. -/
def evalProgramGo : Nat → List Stmt → Nat → Heap → MObject → Option (MObject × Heap)
  | 0, _, _, _, _ => none
  | _ + 1, [], _, heap, result => some (result, heap)
  | fuel + 1, s :: rest, envIdx, heap, _ => do
    let (r, heap₁) ← evaluate fuel (.stmt s) envIdx heap
    if isError r then some (r, heap₁)
    else
      match r with
      | .returnValue v => some (v, heap₁)
      | _ => evalProgramGo fuel rest envIdx heap₁ r
  termination_by structural fuel => fuel

/-- The statement loop of `evalBlockStatement`: stop early and yield the
result unchanged on an error or a `ReturnValue`. -/
def evalBlockGo : Nat → List Stmt → Nat → Heap → MObject → Option (MObject × Heap)
  | 0, _, _, _, _ => none
  | _ + 1, [], _, heap, result => some (result, heap)
  | fuel + 1, s :: rest, envIdx, heap, _ => do
    let (r, heap₁) ← evaluate fuel (.stmt s) envIdx heap
    if isError r || isReturnValue r then some (r, heap₁)
    else evalBlockGo fuel rest envIdx heap₁ r
  termination_by structural fuel => fuel

/-- `evalExpressions`: evaluate left-to-right, and on the first error
return the singleton list holding just that error. -/
def evalExpressionsGo : Nat → List Expr → Nat → Heap → List MObject →
    Option (List MObject × Heap)
  | 0, _, _, _, _ => none
  | _ + 1, [], _, heap, acc => some (acc, heap)
  | fuel + 1, e :: rest, envIdx, heap, acc => do
    let (v, heap₁) ← evaluate fuel (.expr e) envIdx heap
    if isError v then some ([v], heap₁)
    else evalExpressionsGo fuel rest envIdx heap₁ (acc ++ [v])
  termination_by structural fuel => fuel

/-- The pair loop of `evalHashLiteral`: key, key-type check, value, then
`pairs.set(key.inspect(), {key, value})`. -/
def evalHashPairsGo : Nat → List (Expr × Expr) → Nat → Heap →
    List (String × MObject × MObject) → Option (MObject × Heap)
  | 0, _, _, _, _ => none
  | _ + 1, [], _, heap, pairs => some (.hash pairs, heap)
  | fuel + 1, (keyNode, valueNode) :: rest, envIdx, heap, pairs => do
    let (key, heap₁) ← evaluate fuel (.expr keyNode) envIdx heap
    if isError key then some (key, heap₁)
    else if !isHashable key then
      some (.error .invalidHashKey
        ("Hash key must be string, integer, or boolean, got: " ++ inspect key), heap₁)
    else do
      let (value, heap₂) ← evaluate fuel (.expr valueNode) envIdx heap₁
      if isError value then some (value, heap₂)
      else evalHashPairsGo fuel rest envIdx heap₂ (hashPairsSet pairs (inspect key) (key, value))
  termination_by structural fuel => fuel

/-- `evalIfExpression`: truthiness decides the branch; a missing
alternative yields `NULL`. -/
def evalIfExpression : Nat → Expr → List Stmt → Option (List Stmt) → Nat → Heap →
    Option (MObject × Heap)
  | 0, _, _, _, _, _ => none
  | fuel + 1, condition, consequence, alternative, envIdx, heap => do
    let (c, heap₁) ← evaluate fuel (.expr condition) envIdx heap
    if isError c then some (c, heap₁)
    else if isTruthy c then evaluate fuel (.stmt (.blockS consequence)) envIdx heap₁
    else
      match alternative with
      | some a => evaluate fuel (.stmt (.blockS a)) envIdx heap₁
      | none => some (.null, heap₁)
  termination_by structural fuel => fuel

/-- `applyFunction`: a user function gets a fresh environment extending its
captured one and its body result is unwrapped; a builtin is invoked
directly; anything else is a "not a function" error. -/
def applyFunction : Nat → MObject → List MObject → Heap → Option (MObject × Heap)
  | 0, _, _, _ => none
  | fuel + 1, fn, args, heap =>
    match fn with
    | .func parameters body fnEnv => do
      let (newIdx, heap₁) := extendFunctionEnv parameters fnEnv args heap
      let (evaluated, heap₂) ← evaluate fuel (.stmt (.blockS body)) newIdx heap₁
      some (unwrapReturnValue evaluated, heap₂)
    | .builtin name => some (applyBuiltin name args, heap)
    | _ => some (.error .notAFunction ("Not a function: " ++ inspect fn), heap)
  termination_by structural fuel => fuel

end

/-- Evaluate a whole source program in a fresh global environment, as
`runFile`/the REPL do: lex, parse, then `evaluate(program, new Environment())`.
Returns `none` on a parse error or fuel exhaustion (neither occurs for the
programs below). -/
def runProgram (s : String) : Option MObject :=
  match parseSource s with
  | .ok statements =>
    match evaluate 1000 (.program statements) 0 [{ store := [], outer := none }] with
    | some (v, _) => some v
    | none => none
  | .error _ => none

/-! ## Claims -/

/-- C1: the claim states that `a / b` on Integers yields the truncated
integer quotient (so `5 / 2` would be Integer 2).  The code uses the host
`/` on JS numbers, which does not truncate: evaluating `5 / 2` yields an
`Integer` whose value is the fraction `5/2` (2.5), not `2`.
(`Integer.inspect`, i.e. `toFixed(0)`, would even display it as `"3"`.) -/
theorem c1_integer_division_not_truncated :
    runProgram "5 / 2" = some (.integer ⟨5, 2⟩) ∧
    evalIntegerInfixExpression "/" 5 2 = .integer ⟨5, 2⟩ ∧
    (⟨5, 2⟩ : JsNumber) ≠ (2 : JsNumber) ∧
    jsToFixed0 ⟨5, 2⟩ = "3" :=
  ⟨rfl, rfl, by decide, rfl⟩

/-- C2: the claim states `print` returns a string for every AST variant,
including hash literals.  The `switch` of `printer.ts` has no `HashLiteral`
case and no default, so `print` on a hash-literal node falls through and
returns `undefined` (modelled as `none`), not a string — both for the
parsed node of the source `{}` and for the node of `{ "one": 1 }`. -/
theorem c2_print_hash_literal_is_undefined :
    parseSource "\x7b\x7d" = .ok [.exprS (.hashLit [])] ∧
    print (.expr (.hashLit [])) = none ∧
    print (.expr (.hashLit [(.stringLit "one", .integerLit 1)])) = none :=
  ⟨rfl, rfl, rfl⟩

/-- C4: evaluating `5; true + false; 5` yields the "unknown operator" Error
of `true + false` (not the final `5`), and in general, once a statement of
a program evaluates to an Error, `evalProgram`'s loop stops and returns
that Error regardless of the remaining statements. -/
theorem c4_error_short_circuits_program :
    runProgram "5; true + false; 5"
      = some (.error .unknownOperator "Unknown operator: true + false") ∧
    ∀ (fuel : Nat) (s : Stmt) (rest : List Stmt) (envIdx : Nat) (heap heap₁ : Heap)
      (k : ErrKind) (m : String) (acc : MObject),
      evaluate fuel (.stmt s) envIdx heap = some (.error k m, heap₁) →
      evalProgramGo (fuel + 1) (s :: rest) envIdx heap acc = some (.error k m, heap₁) := by
  refine ⟨rfl, ?_⟩
  intro fuel s rest envIdx heap heap₁ k m acc h
  simp [evalProgramGo, h, isError]

/-- Witness for the hypothesis of `c4_error_short_circuits_program`: the
statement `true + false;` errors, so the program loop skips the trailing
`5` and yields that error. -/
theorem c4_error_short_circuits_program_witness :
    evalProgramGo 11
      [.exprS (.infixE (.booleanLit true) "+" (.booleanLit false)), .exprS (.integerLit 5)]
      0 [{ store := [], outer := none }] .null
      = some (.error .unknownOperator "Unknown operator: true + false",
          [{ store := [], outer := none }]) :=
  c4_error_short_circuits_program.2 10
    (.exprS (.infixE (.booleanLit true) "+" (.booleanLit false)))
    [.exprS (.integerLit 5)] 0 [{ store := [], outer := none }]
    [{ store := [], outer := none }] .unknownOperator
    "Unknown operator: true + false" .null rfl

/-- C5: evaluating `if (0) { 1 } else { 2 }` yields Integer 1 — the integer
zero is truthy — and in general `isTruthy` holds exactly for values other
than the Null singleton and the false Boolean singleton. -/
theorem c5_zero_is_truthy :
    runProgram "if (0) \x7b 1 \x7d else \x7b 2 \x7d" = some (.integer 1) ∧
    ∀ obj : MObject, isTruthy obj = true ↔ (obj ≠ .null ∧ obj ≠ .boolean false) := by
  refine ⟨rfl, ?_⟩
  intro obj
  cases obj with
  | boolean b => cases b <;> simp [isTruthy]
  | integer v => simp [isTruthy]
  | str v => simp [isTruthy]
  | null => simp [isTruthy]
  | returnValue v => simp [isTruthy]
  | func p b e => simp [isTruthy]
  | builtin n => simp [isTruthy]
  | array l => simp [isTruthy]
  | hash l => simp [isTruthy]
  | error k m => simp [isTruthy]

/-- C6: the closure program evaluates to Integer 5; a `FunctionLiteral`
evaluates to a function value capturing the environment of its definition
site (the current `env` index, by reference into the arena), and
`extendFunctionEnv` allocates the call environment with the captured
defining environment — not the caller's — as its outer environment. -/
theorem c6_closures_capture_definition_env :
    runProgram
      "let newAdder = fn(x)\x7b fn(y)\x7b x + y \x7d \x7d; let addTwo = newAdder(2); addTwo(3);"
      = some (.integer 5) ∧
    (∀ (fuel : Nat) (parameters : List String) (body : List Stmt) (envIdx : Nat) (heap : Heap),
      evaluate (fuel + 1) (.expr (.functionLit parameters body)) envIdx heap
        = some (.func parameters body envIdx, heap)) ∧
    (∀ (parameters : List String) (fnEnv : Nat) (args : List MObject) (heap : Heap),
      extendFunctionEnv parameters fnEnv args heap
        = (heap.length,
           heap ++ [{ store := bindParamsGo parameters 0 args [], outer := some fnEnv }])) := by
  refine ⟨rfl, ?_, ?_⟩ <;> intros <;> rfl

/-- C7: the `push` builtin returns a new array equal to the original with
the value appended, and the original binding is untouched: the program
`let a = [1,2]; push(a, 3); a` still yields `[1, 2]`. -/
theorem c7_push_returns_new_array :
    (∀ (elements : List MObject) (v : MObject),
      applyBuiltin "push" [.array elements, v] = .array (elements ++ [v])) ∧
    runProgram "let a = [1,2]; push(a, 3); a"
      = some (.array [.integer 1, .integer 2]) := by
  refine ⟨?_, rfl⟩
  intro elements v
  rfl

/-- C8: the printer round-trips of the fixed precedence table:
`print(parse("-a * b"))` is `"((-a) * b);"` and
`print(parse("a + b * c + d / e - f"))` is
`"(((a + (b * c)) + (d / e)) - f);"` — binary operators fold left-to-right
under the declared precedence ladder. -/
theorem c8_precedence_printer_round_trip :
    printSource "-a * b" = some "((-a) * b);" ∧
    printSource "a + b * c + d / e - f" = some "(((a + (b * c)) + (d / e)) - f);" :=
  ⟨rfl, rfl⟩

/-- C9: the claim states that a grouped expression missing its closing `)`
raises an "unexpected token" error whose expected kind is `)`.  The code
(`parseGroupedExpression`, `parser.ts` line 438) checks for `RParen` but
throws `UnexpectedTokenError(TokenType.RBrace, ...)`: on the input `(1`
the raised error's expected kind is `}` (RBrace), not `)` (RParen). -/
theorem c9_grouped_expression_error_expects_rbrace :
    parseSource "(1" = .error (.unexpectedToken .rbrace .eof) ∧
    TokenType.rbrace ≠ TokenType.rparen :=
  ⟨rfl, by decide⟩

/-- If the program loop ends with a `ReturnValue` result although its
accumulator was not one, then some statement of the list evaluated to a
doubly-wrapped `ReturnValue` (the loop unwraps exactly one layer). -/
lemma evalProgramGo_return_source :
    ∀ (stmts : List Stmt) (fuel envIdx : Nat) (heap heap' : Heap) (acc w : MObject),
      (∀ u : MObject, acc ≠ .returnValue u) →
      evalProgramGo fuel stmts envIdx heap acc = some (.returnValue w, heap') →
      ∃ s, s ∈ stmts ∧ ∃ (f e : Nat) (h₁ h₂ : Heap),
        evaluate f (.stmt s) e h₁ = some (.returnValue (.returnValue w), h₂) := by
  intro stmts
  induction stmts with
  | nil =>
    intro fuel envIdx heap heap' acc w hacc h
    match fuel with
    | 0 => simp [evalProgramGo] at h
    | fuel + 1 =>
      simp [evalProgramGo] at h
      exact absurd h.1 (hacc w)
  | cons s rest ih =>
    intro fuel envIdx heap heap' acc w hacc h
    match fuel with
    | 0 => simp [evalProgramGo] at h
    | fuel + 1 =>
      simp only [evalProgramGo] at h
      cases hev : evaluate fuel (.stmt s) envIdx heap with
      | none => simp [hev] at h
      | some p =>
        obtain ⟨r, heap₁⟩ := p
        rw [hev] at h
        cases r with
        | returnValue v =>
          simp [isError] at h
          obtain ⟨hv, hh⟩ := h
          refine ⟨s, List.mem_cons_self s rest, fuel, envIdx, heap, heap₁, ?_⟩
          rw [hv] at hev
          exact hev
        | error k m => simp [isError] at h
        | integer v =>
          have := ih fuel envIdx heap₁ heap' (.integer v) w (by intro u; simp) (by simpa [isError] using h)
          obtain ⟨s', hmem, rest'⟩ := this
          exact ⟨s', List.mem_cons_of_mem s hmem, rest'⟩
        | boolean b =>
          have := ih fuel envIdx heap₁ heap' (.boolean b) w (by intro u; simp) (by simpa [isError] using h)
          obtain ⟨s', hmem, rest'⟩ := this
          exact ⟨s', List.mem_cons_of_mem s hmem, rest'⟩
        | str v =>
          have := ih fuel envIdx heap₁ heap' (.str v) w (by intro u; simp) (by simpa [isError] using h)
          obtain ⟨s', hmem, rest'⟩ := this
          exact ⟨s', List.mem_cons_of_mem s hmem, rest'⟩
        | null =>
          have := ih fuel envIdx heap₁ heap' .null w (by intro u; simp) (by simpa [isError] using h)
          obtain ⟨s', hmem, rest'⟩ := this
          exact ⟨s', List.mem_cons_of_mem s hmem, rest'⟩
        | func p b e =>
          have := ih fuel envIdx heap₁ heap' (.func p b e) w (by intro u; simp) (by simpa [isError] using h)
          obtain ⟨s', hmem, rest'⟩ := this
          exact ⟨s', List.mem_cons_of_mem s hmem, rest'⟩
        | builtin n =>
          have := ih fuel envIdx heap₁ heap' (.builtin n) w (by intro u; simp) (by simpa [isError] using h)
          obtain ⟨s', hmem, rest'⟩ := this
          exact ⟨s', List.mem_cons_of_mem s hmem, rest'⟩
        | array l =>
          have := ih fuel envIdx heap₁ heap' (.array l) w (by intro u; simp) (by simpa [isError] using h)
          obtain ⟨s', hmem, rest'⟩ := this
          exact ⟨s', List.mem_cons_of_mem s hmem, rest'⟩
        | hash l =>
          have := ih fuel envIdx heap₁ heap' (.hash l) w (by intro u; simp) (by simpa [isError] using h)
          obtain ⟨s', hmem, rest'⟩ := this
          exact ⟨s', List.mem_cons_of_mem s hmem, rest'⟩

/-- C3 counterexample: the claim states the final result of evaluating a
whole Program is never a `ReturnValue` wrapper.  But `evalProgram` unwraps
only one layer: `return if (true) { return 5; };` makes the return
statement wrap an already-wrapped value, and the program's final result is
the wrapper `ReturnValue(Integer 5)`. -/
theorem c3_counterexample_return_wrapper_escapes :
    runProgram "return if (true) \x7b return 5; \x7d;" = some (.returnValue (.integer 5)) ∧
    isReturnValue (.returnValue (.integer 5)) = true :=
  ⟨rfl, rfl⟩

/-- C3 (amended): top-level Program evaluation unwraps exactly one layer of
`ReturnValue`; consequently its result is a `ReturnValue` wrapper only when
some statement of the program evaluated to a doubly-wrapped
`ReturnValue(ReturnValue v)` (a `return` whose expression itself produced a
ReturnValue, e.g. `return if (true) { return 5; };`); in every other case
the sentinel is invisible in the final result. -/
theorem c3_result_returnvalue_needs_double_wrap
    (fuel : Nat) (stmts : List Stmt) (envIdx : Nat) (heap heap' : Heap) (w : MObject)
    (h : evaluate fuel (.program stmts) envIdx heap = some (.returnValue w, heap')) :
    ∃ s, s ∈ stmts ∧ ∃ (f e : Nat) (h₁ h₂ : Heap),
      evaluate f (.stmt s) e h₁ = some (.returnValue (.returnValue w), h₂) := by
  match fuel with
  | 0 => simp [evaluate] at h
  | fuel + 1 =>
    have h' : evalProgramGo fuel stmts envIdx heap .null = some (.returnValue w, heap') := h
    exact evalProgramGo_return_source stmts fuel envIdx heap heap' .null w (by intro u; simp) h'

/-- Witness for `c3_result_returnvalue_needs_double_wrap` at the concrete
program `return if (true) { return 5; };`. -/
theorem c3_result_returnvalue_needs_double_wrap_witness :
    ∃ s, s ∈ [Stmt.returnS (.ifE (.booleanLit true) [.returnS (.integerLit 5)] none)] ∧
      ∃ (f e : Nat) (h₁ h₂ : Heap),
        evaluate f (.stmt s) e h₁ = some (.returnValue (.returnValue (.integer 5)), h₂) :=
  c3_result_returnvalue_needs_double_wrap 20
    [Stmt.returnS (.ifE (.booleanLit true) [.returnS (.integerLit 5)] none)] 0
    [{ store := [], outer := none }] [{ store := [], outer := none }] (.integer 5) rfl

/-- `Map.set` then `Map.get` at the same key. -/
lemma storeAssoc_storeSet_self (st : List (String × Option MObject)) (k : String)
    (v : Option MObject) : storeAssoc (storeSet st k v) k = some v := by
  induction st with
  | nil => simp [storeSet, storeAssoc]
  | cons kv rest ih =>
    obtain ⟨k₁, v₁⟩ := kv
    by_cases hk : k₁ = k
    · simp [storeSet, hk, storeAssoc]
    · simp [storeSet, hk, storeAssoc, ih]

/-- `Map.set` leaves other keys' lookups unchanged. -/
lemma storeAssoc_storeSet_other (st : List (String × Option MObject)) (k k₂ : String)
    (v : Option MObject) (hne : k₂ ≠ k) :
    storeAssoc (storeSet st k v) k₂ = storeAssoc st k₂ := by
  have hne' : k ≠ k₂ := fun h => hne h.symm
  induction st with
  | nil => simp [storeSet, storeAssoc, hne']
  | cons kv rest ih =>
    obtain ⟨k₁, v₁⟩ := kv
    by_cases hk : k₁ = k
    · subst hk
      simp [storeSet, storeAssoc, hne']
    · simp [storeSet, hk, storeAssoc, ih]

/-- Once the binding loop runs out of arguments, a name bound to
`undefined` stays bound to `undefined`: every later `set` either touches a
different name or re-binds this one to `args[idx]` with `idx` still out of
range. -/
lemma bindParamsGo_keeps_undefined :
    ∀ (ps : List String) (idx : Nat) (args : List MObject)
      (st : List (String × Option MObject)) (p : String),
      args.length ≤ idx → storeAssoc st p = some none →
      storeAssoc (bindParamsGo ps idx args st) p = some none := by
  intro ps
  induction ps with
  | nil => intro idx args st p _ hst; simpa [bindParamsGo] using hst
  | cons q ps' ih =>
    intro idx args st p hlen hst
    have hget : args.get? idx = none := List.get?_eq_none.mpr hlen
    simp only [bindParamsGo]
    by_cases hq : q = p
    · subst hq
      refine ih (idx + 1) args _ q (Nat.le_succ_of_le hlen) ?_
      rw [hget]
      exact storeAssoc_storeSet_self st q none
    · refine ih (idx + 1) args _ p (Nat.le_succ_of_le hlen) ?_
      rw [storeAssoc_storeSet_other st q p _ (fun h => hq h.symm)]
      exact hst

/-- A parameter that occurs at a position with no corresponding argument
ends up bound to `undefined` in the freshly-built store. -/
lemma bindParamsGo_extra_param :
    ∀ (ps : List String) (idx : Nat) (args : List MObject)
      (st : List (String × Option MObject)) (p : String) (i : Nat),
      ps.get? i = some p → args.length ≤ idx + i →
      storeAssoc (bindParamsGo ps idx args st) p = some none := by
  intro ps
  induction ps with
  | nil => intro idx args st p i hp; simp at hp
  | cons q ps' ih =>
    intro idx args st p i hp hlen
    match i with
    | 0 =>
      simp at hp
      subst hp
      have hlen' : args.length ≤ idx := by simpa using hlen
      have hget : args.get? idx = none := List.get?_eq_none.mpr hlen'
      simp only [bindParamsGo]
      refine bindParamsGo_keeps_undefined ps' (idx + 1) args _ q (Nat.le_succ_of_le hlen') ?_
      rw [hget]
      exact storeAssoc_storeSet_self st q none
    | i + 1 =>
      simp only [List.get?_cons_succ] at hp
      simp only [bindParamsGo]
      exact ih (idx + 1) args _ p i hp (by omega)

/-- Extracting the per-slot bound from `heapWFAux`. -/
lemma heapWFAux_get :
    ∀ (l : List Env) (n k : Nat) (e : Env) (o : Nat),
      heapWFAux n l = true → l.get? k = some e → e.outer = some o → o < n + k := by
  intro l
  induction l with
  | nil => intro n k e o _ hk; simp at hk
  | cons e₀ rest ih =>
    intro n k e o hwf hk ho
    simp only [heapWFAux, Bool.and_eq_true] at hwf
    match k with
    | 0 =>
      simp at hk
      subst hk
      rw [ho] at hwf
      simpa using hwf.1
    | k + 1 =>
      simp only [List.get?_cons_succ] at hk
      have := ih (n + 1) k e o hwf.2 hk ho
      omega

/-- Well-formed heaps have strictly decreasing outer pointers. -/
lemma heapWF_outer_lt (heap : Heap) (k : Nat) (e : Env) (o : Nat)
    (hwf : heapWF heap = true) (hk : heap.get? k = some e) (ho : e.outer = some o) :
    o < k := by
  have := heapWFAux_get heap 0 k e o hwf hk ho
  omega

/-- Appending an environment whose outer pointer is in range preserves
well-formedness. -/
lemma heapWFAux_append :
    ∀ (l : List Env) (n : Nat) (e : Env),
      heapWFAux n l = true →
      (∀ o, e.outer = some o → o < n + l.length) →
      heapWFAux n (l ++ [e]) = true := by
  intro l
  induction l with
  | nil =>
    intro n e _ ho
    simp only [List.nil_append, heapWFAux, Bool.and_eq_true]
    refine ⟨?_, trivial⟩
    cases houter : e.outer with
    | none => rfl
    | some o => simpa using ho o houter
  | cons e₀ rest ih =>
    intro n e hwf ho
    simp only [heapWFAux, Bool.and_eq_true] at hwf
    simp only [List.cons_append, heapWFAux, Bool.and_eq_true]
    refine ⟨hwf.1, ih (n + 1) e hwf.2 ?_⟩
    intro o hoe
    have := ho o hoe
    simp at this ⊢
    omega

/-- `heapWF` is preserved by allocating one environment whose outer pointer
is an existing slot. -/
lemma heapWF_extend (heap : Heap) (e : Env) (hwf : heapWF heap = true)
    (ho : ∀ o, e.outer = some o → o < heap.length) :
    heapWF (heap ++ [e]) = true := by
  refine heapWFAux_append heap 0 e hwf ?_
  intro o hoe
  have := ho o hoe
  omega

/-- On a well-formed heap, `envGetAux` is independent of the fuel once the
fuel exceeds the starting index (the outer chain strictly descends). -/
lemma envGetAux_stable (heap : Heap) (hwf : heapWF heap = true) :
    ∀ (idx : Nat), ∀ (fuel : Nat), idx < fuel → ∀ (name : String),
      envGetAux fuel heap idx name = envGet heap idx name := by
  intro idx
  induction idx using Nat.strong_induction_on with
  | _ idx ih =>
    intro fuel hlt name
    obtain ⟨f, rfl⟩ : ∃ f, fuel = f + 1 := ⟨fuel - 1, by omega⟩
    show envGetAux (f + 1) heap idx name = envGetAux (idx + 1) heap idx name
    simp only [envGetAux]
    cases hg : heap.get? idx with
    | none => simp
    | some e =>
      simp only
      cases hsa : storeAssoc e.store name with
      | none =>
        simp only [hsa]
        cases ho : e.outer with
        | none => simp
        | some o =>
          have holt : o < idx := heapWF_outer_lt heap idx e o hwf hg ho
          simp only [ho]
          rw [ih o holt f (by omega) name, ih o holt idx holt name]
      | some v =>
        cases v with
        | none =>
          simp only [hsa]
          cases ho : e.outer with
          | none => simp
          | some o =>
            have holt : o < idx := heapWF_outer_lt heap idx e o hwf hg ho
            simp only [ho]
            rw [ih o holt f (by omega) name, ih o holt idx holt name]
        | some v₀ => simp only [hsa]

/-- The builtin table lookup either misses or returns the builtin of that
name. -/
lemma builtinsFind_cases (name : String) :
    builtinsFind name = none ∨ builtinsFind name = some (.builtin name) := by
  unfold builtinsFind
  split
  · exact Or.inr rfl
  · exact Or.inl rfl

/-- C10: calling a user-defined Function with fewer arguments than declared
parameters leaves every parameter beyond the supplied arguments effectively
unbound in the call environment: looking that name up (`evalIdentifier`)
returns the binding of the same name from the function's captured enclosing
environment chain when one exists, otherwise the builtin of that name when
one exists, and otherwise the "identifier not found" Error — and when the
captured chain has no binding, the result is never the Null value. -/
theorem c10_missing_argument_falls_through
    (params : List String) (fnEnv : Nat) (args : List MObject) (heap : Heap)
    (p : String) (i : Nat)
    (hwf : heapWF heap = true) (hcap : fnEnv < heap.length)
    (hp : params.get? i = some p) (hargs : args.length ≤ i) :
    (evalIdentifier (extendFunctionEnv params fnEnv args heap).2
        (extendFunctionEnv params fnEnv args heap).1 p =
      match envGet (extendFunctionEnv params fnEnv args heap).2 fnEnv p with
      | some v => v
      | none =>
        match builtinsFind p with
        | some b => b
        | none => MObject.error .identifierNotFound ("Identifier not found: " ++ p)) ∧
    (envGet (extendFunctionEnv params fnEnv args heap).2 fnEnv p = none →
      evalIdentifier (extendFunctionEnv params fnEnv args heap).2
        (extendFunctionEnv params fnEnv args heap).1 p ≠ MObject.null) := by
  set ext : Env := { store := bindParamsGo params 0 args [], outer := some fnEnv } with hext
  have hproj : extendFunctionEnv params fnEnv args heap = (heap.length, heap ++ [ext]) := rfl
  have hwf' : heapWF (heap ++ [ext]) = true := by
    refine heapWF_extend heap ext hwf ?_
    intro o hoe
    simp only [hext] at hoe
    cases hoe
    exact hcap
  have hassoc : storeAssoc ext.store p = some none := by
    simp only [hext]
    exact bindParamsGo_extra_param params 0 args [] p i hp (by omega)
  have hgetext : (heap ++ [ext]).get? heap.length = some ext :=
    List.get?_concat_length heap ext
  have hkey : envGet (heap ++ [ext]) heap.length p = envGet (heap ++ [ext]) fnEnv p := by
    rw [envGet]
    simp only [envGetAux, hgetext, hassoc]
    exact envGetAux_stable (heap ++ [ext]) hwf' fnEnv heap.length hcap p
  constructor
  · rw [hproj]
    simp only [evalIdentifier, hkey]
  · intro hnone
    rw [hproj] at hnone ⊢
    simp only at hnone
    simp only [evalIdentifier, hkey, hnone]
    rcases builtinsFind_cases p with hb | hb <;> simp [hb]

/-- Witness for `c10_missing_argument_falls_through`: calling a function
with parameters `x, y` on the single argument `5` leaves `y` unbound; in a
global environment with no binding for `y` and no builtin named `y`, the
lookup yields the "identifier not found" error (and not Null). -/
theorem c10_missing_argument_falls_through_witness :
    (evalIdentifier (extendFunctionEnv ["x", "y"] 0 [.integer 5] [{ store := [], outer := none }]).2
        (extendFunctionEnv ["x", "y"] 0 [.integer 5] [{ store := [], outer := none }]).1 "y" =
      match envGet (extendFunctionEnv ["x", "y"] 0 [.integer 5] [{ store := [], outer := none }]).2 0 "y" with
      | some v => v
      | none =>
        match builtinsFind "y" with
        | some b => b
        | none => MObject.error .identifierNotFound ("Identifier not found: " ++ "y")) ∧
    (envGet (extendFunctionEnv ["x", "y"] 0 [.integer 5] [{ store := [], outer := none }]).2 0 "y" = none →
      evalIdentifier (extendFunctionEnv ["x", "y"] 0 [.integer 5] [{ store := [], outer := none }]).2
        (extendFunctionEnv ["x", "y"] 0 [.integer 5] [{ store := [], outer := none }]).1 "y" ≠ MObject.null) :=
  c10_missing_argument_falls_through ["x", "y"] 0 [.integer 5]
    [{ store := [], outer := none }] "y" 1 rfl (by decide) rfl (by decide)

end Monkey
